import Mathlib

/-!
# Verification of the Contact Manager core (src/contact_manager.py)

A shallow embedding of the duplicate-detection/merge workflow, the
snapshot/undo and backup logic, validation, and CSV persistence of the
contact manager, together with theorems settling the specification
claims about them.

Modelling conventions:
* Python strings are Lean `String`s (lists of `Char`); `str.strip`,
  `str.split`, `str.lower` (ASCII range) are implemented directly.
* The persisted CSV file is modelled at the row level (the raw CSV
  quoting/escaping layer is an external collaborator per the spec):
  a file is a `List CsvRow`, each row holding the five written fields
  as raw strings.
* Python floats are modelled as exact rationals (`ℚ`); the similarity
  values arising here are small fractions far from rounding boundaries.
* `difflib.SequenceMatcher` is embedded without the autojunk heuristic,
  which only activates for strings of length ≥ 200.
-/

set_option maxRecDepth 100000

namespace ContactManager

/-- The set of characters Python treats as whitespace (`str.strip`, regex `\s`):
ASCII whitespace, the C1 separators, and the common Unicode space characters. -/
def pyIsSpace (c : Char) : Bool :=
  let n := c.toNat
  n = 32 || (9 ≤ n && n ≤ 13) || (28 ≤ n && n ≤ 31) || n = 0x85 || n = 0xa0 ||
  n = 0x1680 || (0x2000 ≤ n && n ≤ 0x200a) || n = 0x2028 || n = 0x2029 ||
  n = 0x202f || n = 0x205f || n = 0x3000

/-- `str.strip()` on a character list: drop whitespace from both ends. -/
def stripChars (l : List Char) : List Char :=
  ((l.dropWhile pyIsSpace).reverse.dropWhile pyIsSpace).reverse

/-- `str.strip()` on a `String`. -/
def pyStrip (s : String) : String :=
  String.mk (stripChars s.data)

/-- ASCII lower-casing of one character (`str.lower` restricted to ASCII;
Python's `str.lower` coincides with this on ASCII input). -/
def pyLower (c : Char) : Char :=
  if 'A' ≤ c ∧ c ≤ 'Z' then Char.ofNat (c.toNat + 32) else c

/-- `str.lower()` on a `String` (ASCII case mapping). -/
def lowerS (s : String) : String :=
  String.mk (s.data.map pyLower)

/-- `str.split(",")`: split a character list at every comma. -/
def splitComma : List Char → List (List Char)
  | [] => [[]]
  | c :: rest =>
    if c = ',' then [] :: splitComma rest
    else
      match splitComma rest with
      | [] => [[c]]
      | h :: t => (c :: h) :: t

/-- An in-memory contact record: the five fields the program keeps
(`favorite` is a boolean in memory, serialized as `"1"`/`"0"`). -/
structure Contact where
  name : String
  phone : String
  email : String
  tags : String
  favorite : Bool
  deriving DecidableEq, Repr, Inhabited

/-- One data row of the persisted CSV file, holding the five written
fields as raw text (header row is implicit). -/
structure CsvRow where
  name : String
  phone : String
  email : String
  tags : String
  favorite : String
  deriving DecidableEq, Repr

/-- Serialization of one contact to a CSV row (`write_contacts` body):
fields written verbatim, `favorite` as `"1"`/`"0"`. -/
def serializeContact (c : Contact) : CsvRow :=
  { name := c.name, phone := c.phone, email := c.email, tags := c.tags,
    favorite := if c.favorite then "1" else "0" }

/-- Parsing of one CSV row (`read_contacts` loop body): every field is
stripped, rows whose stripped name is empty are dropped, and `favorite`
is true exactly for (case-insensitive) `1`, `true`, `yes`, `y`. -/
def parseRow (r : CsvRow) : Option Contact :=
  let name := pyStrip r.name
  if name = "" then none
  else
    some { name := name, phone := pyStrip r.phone, email := pyStrip r.email,
           tags := pyStrip r.tags,
           favorite :=
             decide (lowerS (pyStrip r.favorite) ∈ (["1", "true", "yes", "y"] : List String)) }

/-- `read_contacts` applied to the rows of an existing CSV file. -/
def readRows (rows : List CsvRow) : List Contact :=
  rows.filterMap parseRow

/-- The file-system state the core manipulates: the persisted CSV file
(`none` when absent), the single snapshot slot
(`.prev_contacts_snapshot.json`), and the names of the files in the
backup directory, in creation order. -/
structure SysState where
  csv : Option (List CsvRow)
  snapshot : Option (List Contact)
  backups : List String
  deriving DecidableEq, Repr

/-- `read_contacts()`: parse the persisted file; a missing file reads as
the empty collection. -/
def read_contacts (s : SysState) : List Contact :=
  match s.csv with
  | none => []
  | some rows => readRows rows

/-- Backup file name `contacts_backup_<date>_<time>.csv` (the
`%Y%m%d_%H%M%S` timestamp split at the underscore). -/
def backupName (date time : String) : String :=
  "contacts_backup_" ++ date ++ "_" ++ time ++ ".csv"

/-- Structural prefix test on character lists. -/
def isPrefixList : List Char → List Char → Bool
  | [], _ => true
  | _ :: _, [] => false
  | p :: ps, x :: xs => p = x && isPrefixList ps xs

/-- Structural suffix test on character lists. -/
def isSuffixList (s l : List Char) : Bool :=
  isPrefixList s.reverse l.reverse

/-- The scan in `write_contacts` for an existing automatic/manual backup
of the given date: some file name starts with
`contacts_backup_<date>_` and ends with `.csv`. -/
def hasBackupFor (date : String) (backups : List String) : Bool :=
  backups.any fun f =>
    isPrefixList ("contacts_backup_" ++ date ++ "_").data f.data &&
    isSuffixList ".csv".data f.data

/-- `write_contacts(contacts)` executed at the given date/time: snapshot
the previously persisted state, create a dated backup if the persisted
file exists and no backup for the date does, then overwrite the file. -/
def write_contacts (s : SysState) (contacts : List Contact) (date time : String) :
    SysState :=
  let old := read_contacts s
  let backups :=
    if ¬ hasBackupFor date s.backups ∧ s.csv.isSome then
      s.backups ++ [backupName date time]
    else s.backups
  { csv := some (contacts.map serializeContact),
    snapshot := some old,
    backups := backups }

/-- `create_backup()` at the given date/time: copy the persisted file
into the backup directory unconditionally, unless the file is absent. -/
def create_backup (s : SysState) (date time : String) : SysState :=
  if s.csv.isSome then { s with backups := s.backups ++ [backupName date time] }
  else s

/-- `undo_last_write()` at the given date/time: an absent snapshot and a
snapshot holding the empty list are both falsy in Python (`if not prev`)
and abort; otherwise the snapshot is written back via `write_contacts`
and the snapshot file is removed. The boolean reports success. -/
def undo_last_write (s : SysState) (date time : String) : SysState × Bool :=
  match s.snapshot with
  | none => (s, false)
  | some [] => (s, false)
  | some prev =>
    let s1 := write_contacts s prev date time
    ({ s1 with snapshot := none }, true)

/-!
## Email validation (`EMAIL_RE` and `is_valid_email`)

`EMAIL_RE` is `^[^@\s]+@[^@\s]+\.[a-zA-Z0-9]{2,}$`, applied with
`re.match`. A match decomposes the subject as `L @ M . T` with `L`, `M`
nonempty, `@`- and whitespace-free, and `T` alphanumeric of length ≥ 2;
since `T` is dot-free, the matched dot is necessarily the last dot after
the `@`, so matching is computed deterministically below. Python's `$`
anchor also matches just before one trailing newline, so the regex
additionally accepts `core ++ "\n"`.
-/

/-- `[a-zA-Z0-9]`. -/
def isAsciiAlnum (c : Char) : Bool :=
  let n := c.toNat
  (97 ≤ n && n ≤ 122) || (65 ≤ n && n ≤ 90) || (48 ≤ n && n ≤ 57)

/-- Split a list at the first occurrence of `c`; `none` when absent.
The left part never contains `c`. -/
def breakAtFirst (c : Char) : List Char → Option (List Char × List Char)
  | [] => none
  | x :: xs =>
    if x = c then some ([], xs)
    else
      match breakAtFirst c xs with
      | none => none
      | some (p, q) => some (x :: p, q)

/-- Split a list at the last occurrence of `c`; `none` when absent.
The right part never contains `c`. -/
def breakAtLast (c : Char) (l : List Char) : Option (List Char × List Char) :=
  match breakAtFirst c l.reverse with
  | none => none
  | some (p, q) => some (q.reverse, p.reverse)

/-- A full match of `EMAIL_RE` against the whole subject (the `$`
taken as end-of-string). -/
def emailCore (l : List Char) : Bool :=
  match breakAtFirst '@' l with
  | none => false
  | some (L, R) =>
    decide (L ≠ []) && L.all (fun ch => ! pyIsSpace ch) &&
    R.all (fun ch => decide (ch ≠ '@')) &&
    match breakAtLast '.' R with
    | none => false
    | some (M, T) =>
      decide (M ≠ []) && M.all (fun ch => ! pyIsSpace ch) &&
      decide (2 ≤ T.length) && T.all isAsciiAlnum

/-- `is_valid_email(email)`: `bool(EMAIL_RE.match(email))`, where the
final `$` matches at the end of the subject or just before a single
trailing newline. -/
def is_valid_email (s : String) : Bool :=
  emailCore s.data ||
    (decide (s.data.getLast? = some '\n') && emailCore s.data.dropLast)

/-!
## `difflib.SequenceMatcher` (no junk)

`find_longest_match` scans cells `(i, j)` (`i` ascending outer, `j`
ascending inner) and keeps, with a strict comparison, the first block
attaining the maximal length of a common run ending at `(i, j)` inside
the window; `get_matching_blocks` recurses on both sides of that block,
and `ratio` is `2·M / T` over the total matched length `M` (`1.0` when
both strings are empty). Without junk the post-scan extension loops of
the Python code are no-ops, so they are not modelled.
-/

/-- Length of the common run of equal characters ending at positions
`(i, j)` of `a`/`b`, clipped to the window starting at `(alo, blo)`
(the `j2len` values of `difflib.find_longest_match`). -/
def runEnd (a b : List Char) (alo blo : ℕ) : ℕ → ℕ → ℕ
  | 0, j =>
    match a.get? 0, b.get? j with
    | some x, some y => if x = y then 1 else 0
    | _, _ => 0
  | i + 1, j =>
    match a.get? (i + 1), b.get? j with
    | some x, some y =>
      if x = y then
        (if alo < i + 1 ∧ blo < j then runEnd a b alo blo i (j - 1) else 0) + 1
      else 0
    | _, _ => 0

/-- The cells of the matching window, in the scan order of
`find_longest_match` (`i` ascending outer, `j` ascending inner). -/
def cellList (alo ahi blo bhi : ℕ) : List (ℕ × ℕ) :=
  (List.range' alo (ahi - alo)).flatMap fun i =>
    (List.range' blo (bhi - blo)).map fun j => (i, j)

/-- `find_longest_match` on the window `[alo, ahi) × [blo, bhi)`:
the first block (in scan order) of maximal size, as
`(besti, bestj, bestsize)`; `(alo, blo, 0)` when nothing matches. -/
def findBest (a b : List Char) (alo ahi blo bhi : ℕ) : ℕ × ℕ × ℕ :=
  let cs := cellList alo ahi blo bhi
  let K := cs.foldl (fun m c => max m (runEnd a b alo blo c.1 c.2)) 0
  if K = 0 then (alo, blo, 0)
  else
    match cs.find? (fun c => runEnd a b alo blo c.1 c.2 = K) with
    | some (i, j) => (i + 1 - K, j + 1 - K, K)
    | none => (alo, blo, 0)

/-- Total matched length of `get_matching_blocks` on a window, with a
fuel argument bounding the recursion depth (the window width shrinks by
at least one per level, so `a.length` fuel always suffices). -/
def mTotalFuel (a b : List Char) : ℕ → ℕ → ℕ → ℕ → ℕ → ℕ
  | 0, _, _, _, _ => 0
  | fuel + 1, alo, ahi, blo, bhi =>
    match findBest a b alo ahi blo bhi with
    | (bi, bj, k) =>
      if k = 0 then 0
      else
        mTotalFuel a b fuel alo bi blo bj + k +
          mTotalFuel a b fuel (bi + k) ahi (bj + k) bhi

/-- Total matched length `M` of `get_matching_blocks` on two strings. -/
def mTotal (a b : List Char) : ℕ :=
  mTotalFuel a b a.length 0 a.length 0 b.length

/-- `SequenceMatcher(None, a, b).ratio() = 2*M / T`, as an exact
rational; by convention `1` when both strings are empty. -/
def ratioQ (a b : List Char) : ℚ :=
  if a.length + b.length = 0 then 1
  else mkRat (2 * mTotal a b) (a.length + b.length)

/-- `name_similarity(a, b)`: the matcher ratio of the lower-cased names. -/
def name_similarity (a b : String) : ℚ :=
  ratioQ (lowerS a).data (lowerS b).data

/-!
## The duplicate-merge scan (`merge_duplicates`)
-/

/-- The answer given at a duplicate prompt: `M` (merge), `A`
(merge, advertised as "always auto-merge"), or anything else (skip). -/
inductive MergeAction where
  | merge
  | autoAll
  | skip
  deriving DecidableEq, Repr

/-- Strict lexicographic comparison of character lists by code point,
Python's `<` on strings. -/
def lexLt : List Char → List Char → Bool
  | [], [] => false
  | [], _ :: _ => true
  | _ :: _, [] => false
  | a :: as, b :: bs => if a = b then lexLt as bs else decide (a < b)

/-- Insertion of an element into a list sorted by `le`. -/
def insertLe {α : Type} (le : α → α → Bool) (x : α) : List α → List α
  | [] => [x]
  | y :: ys => if le x y then x :: y :: ys else y :: insertLe le x ys

/-- Insertion sort by `le`. -/
def sortLe {α : Type} (le : α → α → Bool) (l : List α) : List α :=
  l.foldr (insertLe le) []

/-- Python's `sorted` on a collection of (distinct) tag strings:
ascending by code-point lexicographic order. -/
def sortTags (l : List (List Char)) : List (List Char) :=
  sortLe (fun a b => ¬ lexLt b a) l

/-- The tag union of the merge step of `merge_duplicates`:
`sorted(set(t.strip() for t in (target_tags + "," + src_tags).split(",") if t.strip()))`
joined with commas. -/
def tagsMerge (t s : String) : String :=
  let pieces := (splitComma (t.data ++ [','] ++ s.data)).map stripChars
  let pieces := pieces.filter (· ≠ [])
  String.mk (List.intercalate [','] (sortTags pieces.dedup))

/-- The scan state of `merge_duplicates`: the working list (targets are
updated in place), the consumed source indices, and the prompt /
comparison counters. -/
structure ScanState where
  contacts : List Contact
  used : List ℕ
  prompts : ℕ
  comparisons : ℕ
  mergedAny : Bool
  deriving DecidableEq, Repr

/-- The merge block of `merge_duplicates`: the target absorbs the
source's phone/email when its own is empty, the tag lists are joined,
and the favorite flags are or-ed. The name is never changed. -/
def mergeStep (target src : Contact) : Contact :=
  { name := target.name,
    phone := if target.phone = "" ∧ src.phone ≠ "" then src.phone else target.phone,
    email := if target.email = "" ∧ src.email ≠ "" then src.email else target.email,
    tags := tagsMerge target.tags src.tags,
    favorite := target.favorite || src.favorite }

/-- One inner-loop iteration of the scan, for the pair `(i, j)`:
skip consumed sources, compare the names, and on a qualifying pair ask
the decision callback (indexed by the running prompt count); `M` and
`A` answers both merge and consume `j`, anything else skips. The code
keeps no auto-merge state: `A` behaves exactly like `M`. -/
def scanPair (threshold : ℚ) (dec : ℕ → MergeAction) (i j : ℕ)
    (st : ScanState) : ScanState :=
  if st.used.contains j then st
  else
    let ci := st.contacts.getD i default
    let cj := st.contacts.getD j default
    let sim := name_similarity ci.name cj.name
    let st := { st with comparisons := st.comparisons + 1 }
    if threshold ≤ sim then
      let action := dec st.prompts
      let st := { st with prompts := st.prompts + 1 }
      match action with
      | MergeAction.skip => st
      | _ =>
        { st with contacts := st.contacts.set i (mergeStep ci cj),
                  used := j :: st.used,
                  mergedAny := true }
    else st

/-- One outer-loop iteration of the scan: skip consumed targets,
otherwise run the inner loop over `j` from `i + 1` to the end. -/
def scanRow (threshold : ℚ) (dec : ℕ → MergeAction) (n i : ℕ)
    (st : ScanState) : ScanState :=
  if st.used.contains i then st
  else (List.range' (i + 1) (n - (i + 1))).foldl
    (fun acc j => scanPair threshold dec i j acc) st

/-- The outcome of the duplicate scan: the surviving collection, the
number of merges/prompts/comparisons, and whether anything merged. -/
structure MergeOutcome where
  result : List Contact
  merges : ℕ
  prompts : ℕ
  comparisons : ℕ
  mergedAny : Bool
  deriving DecidableEq, Repr

/-- `merge_duplicates` on an in-memory collection: fewer than two
contacts is a no-op; otherwise scan all pairs `(i, j)` with `i < j` in
lexicographic order and return the contacts whose index was not
consumed, in their original relative order. -/
def mergeDuplicates (contacts : List Contact) (threshold : ℚ)
    (dec : ℕ → MergeAction) : MergeOutcome :=
  let n := contacts.length
  if n < 2 then
    { result := contacts, merges := 0, prompts := 0, comparisons := 0,
      mergedAny := false }
  else
    let final := (List.range n).foldl
      (fun acc i => scanRow threshold dec n i acc)
      { contacts := contacts, used := [], prompts := 0, comparisons := 0,
        mergedAny := false }
    { result := (List.range n).filterMap fun k =>
        if final.used.contains k then none else final.contacts.get? k,
      merges := final.used.length,
      prompts := final.prompts,
      comparisons := final.comparisons,
      mergedAny := final.mergedAny }

/-- `merge_duplicates()` at the system level: read the persisted
collection, scan it, and persist the result only when some pair was
actually merged. -/
def merge_duplicates_sys (s : SysState) (threshold : ℚ)
    (dec : ℕ → MergeAction) (date time : String) : SysState × MergeOutcome :=
  let out := mergeDuplicates (read_contacts s) threshold dec
  if out.mergedAny then (write_contacts s out.result date time, out) else (s, out)

/-- A sequence of persisted writes on one calendar date: each element
gives the collection written and the time-of-day part of its timestamp. -/
def writeSeq (s : SysState) (date : String) (ws : List (List Contact × String)) :
    SysState :=
  ws.foldl (fun st w => write_contacts st w.1 date w.2) s

/-- A string field that carries no surrounding whitespace
(`strip` leaves it unchanged). -/
def cleanStr (s : String) : Prop :=
  pyStrip s = s

/-- The data-model invariant on a contact: non-empty name, no field
with surrounding whitespace. -/
def cleanContact (c : Contact) : Prop :=
  cleanStr c.name ∧ c.name ≠ "" ∧ cleanStr c.phone ∧ cleanStr c.email ∧ cleanStr c.tags

instance : DecidablePred cleanContact := fun c => by
  unfold cleanContact cleanStr
  infer_instance

/-- The tag set of a contact's `tags` field: its comma-separated
pieces, stripped, with empty pieces dropped. -/
def tagPieces (s : String) : List (List Char) :=
  ((splitComma s.data).map stripChars).filter (· ≠ [])

/-- A decision sequence answering `A` ("always auto-merge similar") at
the first prompt and skipping at every later prompt. -/
def autoThenSkip : ℕ → MergeAction :=
  fun n => if n = 0 then MergeAction.autoAll else MergeAction.skip

/-- The language the specification claims for `isValidEmail`, from its
words: shape `local-part@domain.tld` — exactly one `@`, no whitespace
anywhere, a nonempty local part, at least one dot after the `@` with a
nonempty domain part before the last dot, and a final label (after the
last dot) of 2 or more alphanumeric characters. -/
def specEmailShape (l : List Char) : Prop :=
  l.count '@' = 1 ∧
  (∀ c ∈ l, pyIsSpace c = false) ∧
  ∃ L M T, l = L ++ '@' :: (M ++ '.' :: T) ∧ L ≠ [] ∧ '@' ∉ L ∧
    M ≠ [] ∧ '.' ∉ T ∧ 2 ≤ T.length ∧ ∀ c ∈ T, isAsciiAlnum c = true

end ContactManager

section BasicSanity

open ContactManager

example : pyStrip "  a b " = "a b" := by decide
example : splitComma "a,,b".data = ["a".data, [], "b".data] := by decide
example : readRows [⟨"  ", "1", "", "", ""⟩, ⟨" Bob ", "22", "", "t", "yes"⟩] =
    [⟨"Bob", "22", "", "t", true⟩] := by decide
example : lowerS "AbZ9" = "abz9" := by decide
example : ratioQ "ab".data "bacb".data = mkRat 2 3 := by decide
example : ratioQ "bacb".data "ab".data = mkRat 1 3 := by decide
example : name_similarity "Jon Smith" "Jonn Smith" = mkRat 18 19 := by decide
example : tagsMerge "work" "vip" = "vip,work" := by decide
example : is_valid_email "a@b" = false := by decide
example : is_valid_email "a@b.com" = true := by decide
example : is_valid_email "a@b.com\n" = true := by decide
example : is_valid_email "a@b.com\n\n" = false := by decide
example : is_valid_email "a@@b.com" = false := by decide
example : is_valid_email "a@b..cc" = true := by decide
example : is_valid_email "a@.com" = false := by decide
example : is_valid_email "a@x.y.zz" = true := by decide
example : is_valid_email "a@b.c" = false := by decide
example : is_valid_email "a b@c.de" = false := by decide
example : is_valid_email "a@b.com\x0d\n" = false := by decide
example : is_valid_email "a@b\n.com" = false := by decide
example : is_valid_email "" = false := by decide

end BasicSanity

namespace ContactManager

/-!
## Round-trip lemmas for the persistence layer
-/

theorem stripChars_eq (l : List Char) :
    stripChars l = List.rdropWhile pyIsSpace (List.dropWhile pyIsSpace l) := rfl

theorem dropWhile_head_cases {α : Type} (p : α → Bool) (l : List α) :
    l.dropWhile p = [] ∨ ∃ a t, l.dropWhile p = a :: t ∧ p a = false := by
  induction l with
  | nil => exact Or.inl rfl
  | cons a as ih =>
    by_cases hp : p a
    · rw [List.dropWhile_cons_of_pos hp]
      exact ih
    · rw [List.dropWhile_cons_of_neg hp]
      exact Or.inr ⟨a, as, rfl, Bool.eq_false_iff.mpr hp⟩

theorem stripChars_idem (l : List Char) : stripChars (stripChars l) = stripChars l := by
  rw [stripChars_eq, stripChars_eq]
  have h1 : List.dropWhile pyIsSpace
      (List.rdropWhile pyIsSpace (List.dropWhile pyIsSpace l)) =
      List.rdropWhile pyIsSpace (List.dropWhile pyIsSpace l) := by
    obtain ⟨t, ht⟩ := List.rdropWhile_prefix pyIsSpace (List.dropWhile pyIsSpace l)
    cases hvc : List.rdropWhile pyIsSpace (List.dropWhile pyIsSpace l) with
    | nil => rfl
    | cons a as =>
      rw [hvc] at ht
      rcases dropWhile_head_cases pyIsSpace l with hc | ⟨b, u, hbu, hb⟩
      · rw [hc] at ht
        exact absurd ht (by simp)
      · rw [hbu] at ht
        have hab : a = b := by
          have := congrArg List.head? ht
          simpa using this
        rw [List.dropWhile_cons_of_neg]
        rw [hab]
        exact Bool.eq_false_iff.mp hb
  rw [h1, List.rdropWhile_idempotent]

theorem pyStrip_idem (s : String) : pyStrip (pyStrip s) = pyStrip s :=
  congrArg String.mk (stripChars_idem s.data)

theorem parseRow_serializeContact (c : Contact) (h : cleanContact c) :
    parseRow (serializeContact c) = some c := by
  obtain ⟨nm, ph, em, tg, fv⟩ := c
  obtain ⟨hn, hne, hp, he, ht⟩ := h
  simp only [cleanStr] at hn hp he ht
  have h1 : decide (lowerS (pyStrip "1") ∈ (["1", "true", "yes", "y"] : List String)) =
      true := by decide
  have h0 : decide (lowerS (pyStrip "0") ∈ (["1", "true", "yes", "y"] : List String)) =
      false := by decide
  cases fv with
  | true =>
    simp [parseRow, serializeContact, hn, hp, he, ht, hne, h1]
    decide
  | false =>
    simp [parseRow, serializeContact, hn, hp, he, ht, hne, h0]
    decide

theorem parseRow_clean (r : CsvRow) (c : Contact) (h : parseRow r = some c) :
    cleanContact c := by
  unfold parseRow at h
  by_cases hn : pyStrip r.name = ""
  · simp [hn] at h
  · rw [if_neg hn] at h
    obtain rfl := Option.some.inj h
    exact ⟨pyStrip_idem _, hn, pyStrip_idem _, pyStrip_idem _, pyStrip_idem _⟩

theorem readRows_serialize (l : List Contact) (h : ∀ c ∈ l, cleanContact c) :
    readRows (l.map serializeContact) = l := by
  induction l with
  | nil => rfl
  | cons c cs ih =>
    have hc := h c (List.mem_cons_self c cs)
    have hcs := fun x hx => h x (List.mem_cons_of_mem c hx)
    unfold readRows at *
    simp only [List.map_cons, List.filterMap_cons, parseRow_serializeContact c hc, ih hcs]

theorem read_contacts_clean (s : SysState) : ∀ c ∈ read_contacts s, cleanContact c := by
  intro c hc
  unfold read_contacts at hc
  cases h : s.csv with
  | none => rw [h] at hc; simp at hc
  | some rows =>
    rw [h] at hc
    unfold readRows at hc
    obtain ⟨r, _, hr⟩ := List.mem_filterMap.mp hc
    exact parseRow_clean r c hr

theorem read_write_contacts (s : SysState) (l : List Contact) (d t : String)
    (h : ∀ c ∈ l, cleanContact c) :
    read_contacts (write_contacts s l d t) = l := by
  unfold write_contacts read_contacts
  exact readRows_serialize l h

/-!
## Claim theorems
-/

/-!
## Lemmas about the tag merge
-/

theorem splitComma_ne_nil (l : List Char) : splitComma l ≠ [] := by
  cases l with
  | nil => simp [splitComma]
  | cons c rest =>
    unfold splitComma
    by_cases hc : c = ','
    · simp [hc]
    · rw [if_neg hc]
      cases splitComma rest <;> simp

theorem splitComma_append (x y : List Char) :
    splitComma (x ++ ',' :: y) = splitComma x ++ splitComma y := by
  induction x with
  | nil => simp [splitComma]
  | cons c x' ih =>
    by_cases hc : c = ','
    · subst hc
      show splitComma (',' :: (x' ++ ',' :: y)) = splitComma (',' :: x') ++ _
      unfold splitComma
      simp [ih]
      exact splitComma.eq_def y
    · show splitComma (c :: (x' ++ ',' :: y)) = splitComma (c :: x') ++ _
      unfold splitComma
      rw [if_neg hc, if_neg hc, ih]
      rcases hx : splitComma x' with _ | ⟨h, t⟩
      · exact absurd hx (splitComma_ne_nil x')
      · simp
        exact splitComma.eq_def y

/-- The tag union computed by the merge block equals the deduplicated,
sorted, comma-joined union of the two contacts' tag sets. -/
theorem tagsMerge_eq_union (t s : String) :
    tagsMerge t s =
      String.mk (List.intercalate [','] (sortTags ((tagPieces t ++ tagPieces s).dedup))) := by
  have h : t.data ++ [','] ++ s.data = t.data ++ ',' :: s.data := by simp
  simp only [tagsMerge, tagPieces, h, splitComma_append, List.map_append,
    List.filter_append]

/-- C2: for a qualifying pair `(i, j) = (0, 1)` decided `Merge`, the
result keeps the earlier contact updated — phone/email kept unless
empty (then taken from the source), tags the deduplicated sorted
comma-joined union of both tag sets, favorite the `or` of both flags —
and the later contact is removed. -/
theorem mergeDuplicates_pair_merge (c0 c1 : Contact) (th : ℚ)
    (h : th ≤ name_similarity c0.name c1.name) :
    mergeDuplicates [c0, c1] th (fun _ => MergeAction.merge) =
      ⟨[mergeStep c0 c1], 1, 1, 1, true⟩ ∧
    (mergeStep c0 c1).name = c0.name ∧
    (mergeStep c0 c1).phone = (if c0.phone = "" then c1.phone else c0.phone) ∧
    (mergeStep c0 c1).email = (if c0.email = "" then c1.email else c0.email) ∧
    (mergeStep c0 c1).tags =
      String.mk (List.intercalate [','] (sortTags ((tagPieces c0.tags ++ tagPieces c1.tags).dedup))) ∧
    (mergeStep c0 c1).favorite = (c0.favorite || c1.favorite) := by
  refine ⟨?_, rfl, ?_, ?_, tagsMerge_eq_union c0.tags c1.tags, rfl⟩
  · unfold mergeDuplicates
    rw [if_neg (by simp)]
    have hr : List.range ([c0, c1].length) = [0, 1] := rfl
    rw [hr]
    simp only [List.foldl_cons, List.foldl_nil]
    rw [show scanRow th (fun _ => MergeAction.merge) [c0, c1].length 0
        ⟨[c0, c1], [], 0, 0, false⟩ =
        (List.range' 1 1).foldl
          (fun acc j => scanPair th (fun _ => MergeAction.merge) 0 j acc)
          ⟨[c0, c1], [], 0, 0, false⟩ from by
      unfold scanRow
      rw [if_neg (by simp)]
      rfl]
    rw [show (List.range' 1 1) = [1] from rfl]
    simp only [List.foldl_cons, List.foldl_nil]
    rw [show scanPair th (fun _ => MergeAction.merge) 0 1 ⟨[c0, c1], [], 0, 0, false⟩ =
        ⟨[mergeStep c0 c1, c1], [1], 1, 1, true⟩ from by
      unfold scanPair
      rw [if_neg (by simp)]
      simp only [List.getD, List.get?_cons_zero, List.get?_cons_succ, Option.getD_some]
      rw [if_pos h]
      rfl]
    rw [show scanRow th (fun _ => MergeAction.merge) [c0, c1].length 1
        ⟨[mergeStep c0 c1, c1], [1], 1, 1, true⟩ =
        ⟨[mergeStep c0 c1, c1], [1], 1, 1, true⟩ from by
      unfold scanRow
      rw [if_pos (by simp)]]
    rfl
  · unfold mergeStep
    by_cases h0 : c0.phone = ""
    · by_cases h1 : c1.phone = "" <;> simp [h0, h1]
    · simp [h0]
  · unfold mergeStep
    by_cases h0 : c0.email = ""
    · by_cases h1 : c1.email = "" <;> simp [h0, h1]
    · simp [h0]

/-- Witness for C2: the spec's concrete scenario — merging
`Jon Smith` (no phone, tag `work`) with `Jonn Smith`
(phone `5551234567`, tag `vip`) at threshold `0.85` yields the single
contact `Jon Smith / 5551234567 / vip,work / not favorite`. -/
theorem mergeDuplicates_pair_merge_witness :
    mkRat 17 20 ≤ name_similarity "Jon Smith" "Jonn Smith" ∧
    mergeDuplicates
      [⟨"Jon Smith", "", "", "work", false⟩,
       ⟨"Jonn Smith", "5551234567", "", "vip", false⟩]
      (mkRat 17 20) (fun _ => MergeAction.merge) =
      ⟨[⟨"Jon Smith", "5551234567", "", "vip,work", false⟩], 1, 1, 1, true⟩ := by
  refine ⟨by decide, ?_⟩
  rw [(mergeDuplicates_pair_merge ⟨"Jon Smith", "", "", "work", false⟩
    ⟨"Jonn Smith", "5551234567", "", "vip", false⟩ (mkRat 17 20) (by decide)).1]
  decide

/-- C8: on a collection with fewer than two contacts (the empty one
included) the duplicate find-and-merge operation performs no
comparisons, issues no prompts, merges nothing, and leaves both the
collection and the persisted state unchanged. -/
theorem merge_duplicates_small_noop (s : SysState) (th : ℚ)
    (dec : ℕ → MergeAction) (d t : String)
    (h : (read_contacts s).length < 2) :
    merge_duplicates_sys s th dec d t =
      (s, ⟨read_contacts s, 0, 0, 0, false⟩) := by
  unfold merge_duplicates_sys mergeDuplicates
  rw [if_pos h]
  rfl

/-- Witness for C8 at the empty persisted collection. -/
theorem merge_duplicates_small_noop_witness :
    (read_contacts ⟨some [], none, []⟩).length < 2 ∧
    merge_duplicates_sys ⟨some [], none, []⟩ (mkRat 9 10) (fun _ => MergeAction.merge)
      "20251114" "101010" =
      (⟨some [], none, []⟩, ⟨[], 0, 0, 0, false⟩) :=
  ⟨by decide,
    merge_duplicates_small_noop ⟨some [], none, []⟩ (mkRat 9 10)
      (fun _ => MergeAction.merge) "20251114" "101010" (by decide)⟩

/-- C9: when the retained snapshot is the empty collection, undo
reports no snapshot and changes nothing — exactly the behaviour of an
empty snapshot slot (`if not prev` treats `[]` and `None` alike). -/
theorem undo_empty_snapshot_noop (s : SysState) (d t : String) :
    (s.snapshot = some [] → undo_last_write s d t = (s, false)) ∧
    (s.snapshot = none → undo_last_write s d t = (s, false)) := by
  constructor
  · intro h
    unfold undo_last_write
    rw [h]
  · intro h
    unfold undo_last_write
    rw [h]

/-- Witness for C9: a state whose snapshot is the empty collection and
one with no snapshot behave identically under undo. -/
theorem undo_empty_snapshot_noop_witness :
    undo_last_write ⟨some [⟨"Bob", "", "", "", "1"⟩], some [], []⟩ "20251114" "101010" =
      (⟨some [⟨"Bob", "", "", "", "1"⟩], some [], []⟩, false) ∧
    undo_last_write ⟨some [⟨"Bob", "", "", "", "1"⟩], none, []⟩ "20251114" "101010" =
      (⟨some [⟨"Bob", "", "", "", "1"⟩], none, []⟩, false) :=
  ⟨(undo_empty_snapshot_noop ⟨some [⟨"Bob", "", "", "", "1"⟩], some [], []⟩
      "20251114" "101010").1 rfl,
    (undo_empty_snapshot_noop ⟨some [⟨"Bob", "", "", "", "1"⟩], none, []⟩
      "20251114" "101010").2 rfl⟩

/-- C10: every contact produced by reading the persisted file has a
non-empty name, and a row whose name strips to the empty string is
silently dropped. -/
theorem readRows_nonempty_names (rows : List CsvRow) :
    (∀ c ∈ readRows rows, c.name ≠ "") ∧
    (∀ r, pyStrip r.name = "" → readRows (r :: rows) = readRows rows) := by
  constructor
  · intro c hc
    unfold readRows at hc
    obtain ⟨r, _, hr⟩ := List.mem_filterMap.mp hc
    unfold parseRow at hr
    by_cases hn : pyStrip r.name = ""
    · simp [hn] at hr
    · rw [if_neg hn] at hr
      obtain rfl := Option.some.inj hr
      exact hn
  · intro r hr
    unfold readRows
    rw [List.filterMap_cons]
    have : parseRow r = none := by
      unfold parseRow
      rw [if_pos hr]
    rw [this]

/-- C1 (code evaluation): the code keeps no auto-merge state. With
three identical names and the decision sequence `A` then skip, the
first qualifying pair `(0, 1)` merges, but the next qualifying pair
`(0, 2)` — similarity `1 ≥ 0.9` — consults the decision callback again
(2 prompts in total) and is then skipped, leaving a second contact in
the result. Under the claim, after `A` that pair would have been merged
with no further prompt (1 prompt, single surviving contact). -/
theorem merge_auto_still_prompts :
    mergeDuplicates
      [⟨"Jon", "", "", "", false⟩, ⟨"Jon", "111", "", "x", false⟩,
       ⟨"Jon", "222", "", "y", true⟩]
      (mkRat 9 10) autoThenSkip =
      ⟨[⟨"Jon", "111", "", "x", false⟩, ⟨"Jon", "222", "", "y", true⟩],
        1, 2, 2, true⟩ := by
  decide

/-!
## Lemmas about dated backups
-/

theorem isPrefixList_append (p r : List Char) : isPrefixList p (p ++ r) = true := by
  induction p with
  | nil => rfl
  | cons c cs ih => simp [isPrefixList, ih]

theorem backupName_matches (d t : String) :
    (isPrefixList ("contacts_backup_" ++ d ++ "_").data (backupName d t).data &&
      isSuffixList ".csv".data (backupName d t).data) = true := by
  have h1 : (backupName d t).data =
      ("contacts_backup_" ++ d ++ "_").data ++ (t.data ++ ".csv".data) := by
    simp [backupName, String.data_append]
  have h2 : (backupName d t).data.reverse =
      ".csv".data.reverse ++ (t.data.reverse ++ ("contacts_backup_" ++ d ++ "_").data.reverse) := by
    rw [h1]
    simp
  rw [Bool.and_eq_true]
  constructor
  · rw [h1]
    exact isPrefixList_append _ _
  · unfold isSuffixList
    rw [h2]
    exact isPrefixList_append _ _

theorem hasBackupFor_append_self (d t : String) (bs : List String) :
    hasBackupFor d (bs ++ [backupName d t]) = true := by
  unfold hasBackupFor
  rw [List.any_append]
  simp only [List.any_cons, List.any_nil, Bool.or_false]
  rw [backupName_matches]
  simp

theorem write_contacts_backups_of_has (st : SysState) (c : List Contact) (d t : String)
    (h : hasBackupFor d st.backups = true) :
    (write_contacts st c d t).backups = st.backups := by
  unfold write_contacts
  simp [h]

theorem writeSeq_backups_of_has (d : String) (ws : List (List Contact × String)) :
    ∀ st : SysState, hasBackupFor d st.backups = true →
      (writeSeq st d ws).backups = st.backups := by
  induction ws with
  | nil => intro st _; rfl
  | cons w rest ih =>
    intro st h
    show (writeSeq (write_contacts st w.1 d w.2) d rest).backups = st.backups
    rw [ih _ (by rw [write_contacts_backups_of_has st w.1 d w.2 h]; exact h)]
    exact write_contacts_backups_of_has st w.1 d w.2 h

theorem writeSeq_backups_cases (d : String) (ws : List (List Contact × String)) :
    ∀ st : SysState, (writeSeq st d ws).backups = st.backups ∨
      ∃ t, (writeSeq st d ws).backups = st.backups ++ [backupName d t] := by
  induction ws with
  | nil => intro st; exact Or.inl rfl
  | cons w rest ih =>
    intro st
    show (writeSeq (write_contacts st w.1 d w.2) d rest).backups = st.backups ∨ _
    by_cases hc : ¬ hasBackupFor d st.backups ∧ st.csv.isSome
    · have hb : (write_contacts st w.1 d w.2).backups =
          st.backups ++ [backupName d w.2] := by
        unfold write_contacts
        rw [if_pos hc]
      have hh : hasBackupFor d (write_contacts st w.1 d w.2).backups = true := by
        rw [hb]
        exact hasBackupFor_append_self d w.2 st.backups
      right
      refine ⟨w.2, ?_⟩
      show (writeSeq (write_contacts st w.1 d w.2) d rest).backups = _
      rw [writeSeq_backups_of_has d rest _ hh, hb]
    · have hb : (write_contacts st w.1 d w.2).backups = st.backups := by
        unfold write_contacts
        rw [if_neg hc]
      rcases ih (write_contacts st w.1 d w.2) with h | ⟨t, ht⟩
      · left
        show (writeSeq (write_contacts st w.1 d w.2) d rest).backups = _
        rw [h, hb]
      · right
        refine ⟨t, ?_⟩
        show (writeSeq (write_contacts st w.1 d w.2) d rest).backups = _
        rw [ht, hb]

/-- C4: over any sequence of persisted writes on one calendar date, at
most one automatic dated backup is created; when the persisted file
exists and no backup for the date exists yet, the first write creates
exactly one and later writes that day create none; a manual backup call
always appends one timestamped backup file, regardless of existing
backups for the day. -/
theorem dated_backup_once_per_day (s : SysState) (d : String)
    (ws : List (List Contact × String)) :
    (writeSeq s d ws).backups.length ≤ s.backups.length + 1 ∧
    (s.csv.isSome = true → hasBackupFor d s.backups = false →
      ∀ w rest, ws = w :: rest →
        (writeSeq s d ws).backups = s.backups ++ [backupName d w.2]) ∧
    (∀ s' : SysState, ∀ t : String, s'.csv.isSome = true →
      (create_backup s' d t).backups = s'.backups ++ [backupName d t]) := by
  refine ⟨?_, ?_, ?_⟩
  · rcases writeSeq_backups_cases d ws s with h | ⟨t, ht⟩
    · rw [h]
      omega
    · rw [ht]
      simp
  · intro hcsv hno w rest hws
    subst hws
    have hb : (write_contacts s w.1 d w.2).backups =
        s.backups ++ [backupName d w.2] := by
      unfold write_contacts
      rw [if_pos ⟨by simp [hno], hcsv⟩]
    have hh : hasBackupFor d (write_contacts s w.1 d w.2).backups = true := by
      rw [hb]
      exact hasBackupFor_append_self d w.2 s.backups
    show (writeSeq (write_contacts s w.1 d w.2) d rest).backups = _
    rw [writeSeq_backups_of_has d rest _ hh, hb]
  · intro s' t hcsv
    unfold create_backup
    rw [if_pos hcsv]

/-- Witness for C4: two same-day writes from a fresh state create one
dated backup in total, and a manual backup then adds one more even
though a backup for the date exists. -/
theorem dated_backup_once_per_day_witness :
    ((⟨some [], none, []⟩ : SysState).csv.isSome = true ∧
      hasBackupFor "20251114" (⟨some [], none, []⟩ : SysState).backups = false) ∧
    ((writeSeq ⟨some [], none, []⟩ "20251114"
        [([⟨"Bob", "", "", "", false⟩], "090000"), ([], "100000")]).backups.length ≤
      (⟨some [], none, []⟩ : SysState).backups.length + 1 ∧
    (writeSeq ⟨some [], none, []⟩ "20251114"
        [([⟨"Bob", "", "", "", false⟩], "090000"), ([], "100000")]).backups =
      (⟨some [], none, []⟩ : SysState).backups ++ [backupName "20251114" "090000"] ∧
    (create_backup ⟨some [⟨"Bob", "", "", "", "1"⟩], none,
        ["contacts_backup_20251114_090000.csv"]⟩ "20251114" "110000").backups =
      ["contacts_backup_20251114_090000.csv"] ++ [backupName "20251114" "110000"]) := by
  have h := dated_backup_once_per_day ⟨some [], none, []⟩ "20251114"
    [([⟨"Bob", "", "", "", false⟩], "090000"), ([], "100000")]
  exact ⟨⟨by decide, by decide⟩,
    h.1,
    h.2.1 (by decide) (by decide) ([⟨"Bob", "", "", "", false⟩], "090000")
      [([], "100000")] rfl,
    h.2.2 ⟨some [⟨"Bob", "", "", "", "1"⟩], none,
      ["contacts_backup_20251114_090000.csv"]⟩ "110000" (by decide)⟩

/-- C3 counterexample: when W1 persists the empty collection, the
snapshot taken by W2 is the empty list, which `if not prev` treats as
"no snapshot": the undo after W2 fails and restores nothing, although
the claim requires it to restore the (empty) state before W2. -/
theorem undo_after_empty_write_fails :
    read_contacts (write_contacts ⟨some [], none, []⟩ [] "20251114" "090000") = [] ∧
    read_contacts
      (write_contacts (write_contacts ⟨some [], none, []⟩ [] "20251114" "090000")
        [⟨"Alice", "", "", "", false⟩] "20251114" "100000") =
      [⟨"Alice", "", "", "", false⟩] ∧
    undo_last_write
      (write_contacts (write_contacts ⟨some [], none, []⟩ [] "20251114" "090000")
        [⟨"Alice", "", "", "", false⟩] "20251114" "100000") "20251114" "110000" =
      ((write_contacts (write_contacts ⟨some [], none, []⟩ [] "20251114" "090000")
        [⟨"Alice", "", "", "", false⟩] "20251114" "100000"), false) := by
  refine ⟨by decide, by decide, by decide⟩

/-- C3 (amended): after consecutive writes W1 then W2 where the
persisted state before W2 is non-empty, undo succeeds and restores
exactly that state, empties the snapshot slot, and a second immediate
undo fails; an undo with an empty snapshot slot always fails. -/
theorem undo_single_level (s : SysState) (c1 c2 : List Contact)
    (d1 t1 d2 t2 d3 t3 d4 t4 : String)
    (h : read_contacts (write_contacts s c1 d1 t1) ≠ []) :
    (undo_last_write (write_contacts (write_contacts s c1 d1 t1) c2 d2 t2) d3 t3).2 =
      true ∧
    read_contacts
        (undo_last_write (write_contacts (write_contacts s c1 d1 t1) c2 d2 t2) d3 t3).1 =
      read_contacts (write_contacts s c1 d1 t1) ∧
    (undo_last_write (write_contacts (write_contacts s c1 d1 t1) c2 d2 t2) d3 t3).1.snapshot =
      none ∧
    undo_last_write
        (undo_last_write (write_contacts (write_contacts s c1 d1 t1) c2 d2 t2) d3 t3).1
        d4 t4 =
      ((undo_last_write (write_contacts (write_contacts s c1 d1 t1) c2 d2 t2) d3 t3).1,
        false) ∧
    (∀ s' : SysState, s'.snapshot = none → undo_last_write s' d4 t4 = (s', false)) := by
  have hsnap : (write_contacts (write_contacts s c1 d1 t1) c2 d2 t2).snapshot =
      some (read_contacts (write_contacts s c1 d1 t1)) := rfl
  rcases hp : read_contacts (write_contacts s c1 d1 t1) with _ | ⟨a, rest⟩
  · exact absurd hp h
  · have hundo : undo_last_write (write_contacts (write_contacts s c1 d1 t1) c2 d2 t2)
        d3 t3 =
        ({ write_contacts (write_contacts (write_contacts s c1 d1 t1) c2 d2 t2)
            (a :: rest) d3 t3 with snapshot := none }, true) := by
      unfold undo_last_write
      rw [hsnap, hp]
    refine ⟨by rw [hundo], ?_, by rw [hundo], by rw [hundo]; rfl, ?_⟩
    · rw [hundo]
      have hclean : ∀ c ∈ (a :: rest),
          cleanContact c := by
        rw [← hp]
        exact read_contacts_clean _
      show readRows ((a :: rest).map serializeContact) = a :: rest
      exact readRows_serialize _ hclean
    · intro s' hs'
      unfold undo_last_write
      rw [hs']

/-- Witness for C3: two concrete writes, then undo restores the state
before the second write and a second undo fails. -/
theorem undo_single_level_witness :
    read_contacts (write_contacts ⟨some [], none, []⟩ [⟨"Bob", "", "", "", false⟩]
      "20251114" "090000") ≠ [] ∧
    ((undo_last_write (write_contacts (write_contacts ⟨some [], none, []⟩
        [⟨"Bob", "", "", "", false⟩] "20251114" "090000")
        [⟨"Alice", "", "", "", false⟩] "20251114" "100000") "20251114" "110000").2 = true ∧
      read_contacts (undo_last_write (write_contacts (write_contacts ⟨some [], none, []⟩
        [⟨"Bob", "", "", "", false⟩] "20251114" "090000")
        [⟨"Alice", "", "", "", false⟩] "20251114" "100000") "20251114" "110000").1 =
        read_contacts (write_contacts ⟨some [], none, []⟩ [⟨"Bob", "", "", "", false⟩]
          "20251114" "090000") ∧
      (undo_last_write (write_contacts (write_contacts ⟨some [], none, []⟩
        [⟨"Bob", "", "", "", false⟩] "20251114" "090000")
        [⟨"Alice", "", "", "", false⟩] "20251114" "100000") "20251114" "110000").1.snapshot =
        none ∧
      undo_last_write (undo_last_write (write_contacts (write_contacts ⟨some [], none, []⟩
        [⟨"Bob", "", "", "", false⟩] "20251114" "090000")
        [⟨"Alice", "", "", "", false⟩] "20251114" "100000") "20251114" "110000").1
        "20251114" "120000" =
        ((undo_last_write (write_contacts (write_contacts ⟨some [], none, []⟩
          [⟨"Bob", "", "", "", false⟩] "20251114" "090000")
          [⟨"Alice", "", "", "", false⟩] "20251114" "100000") "20251114" "110000").1,
          false) ∧
      (∀ s' : SysState, s'.snapshot = none →
        undo_last_write s' "20251114" "120000" = (s', false))) :=
  ⟨by decide,
    undo_single_level ⟨some [], none, []⟩ [⟨"Bob", "", "", "", false⟩]
      [⟨"Alice", "", "", "", false⟩] "20251114" "090000" "20251114" "100000"
      "20251114" "110000" "20251114" "120000" (by decide)⟩

/-!
## Lemmas about the sequence matcher
-/

theorem foldlMax_init_le {α : Type} (f : α → ℕ) (l : List α) :
    ∀ init : ℕ, init ≤ l.foldl (fun m c => max m (f c)) init := by
  induction l with
  | nil => intro init; exact le_refl _
  | cons c t ih =>
    intro init
    exact le_trans (le_max_left init (f c)) (ih (max init (f c)))

theorem le_foldlMax {α : Type} (f : α → ℕ) (l : List α) :
    ∀ init : ℕ, ∀ x ∈ l, f x ≤ l.foldl (fun m c => max m (f c)) init := by
  induction l with
  | nil => intro _ x hx; simp at hx
  | cons c t ih =>
    intro init x hx
    rcases List.mem_cons.mp hx with rfl | hmem
    · exact le_trans (le_max_right init (f x)) (foldlMax_init_le f t _)
    · exact ih _ x hmem

theorem foldlMax_le {α : Type} (f : α → ℕ) (l : List α) :
    ∀ init m : ℕ, init ≤ m → (∀ x ∈ l, f x ≤ m) →
      l.foldl (fun m c => max m (f c)) init ≤ m := by
  induction l with
  | nil => intro init m h _; exact h
  | cons c t ih =>
    intro init m h hall
    exact ih _ m (max_le h (hall c (List.mem_cons_self c t)))
      fun x hx => hall x (List.mem_cons_of_mem c hx)

theorem find?_unique {α : Type} (p : α → Bool) (l : List α) (x : α)
    (hx : x ∈ l) (hpx : p x = true) (huniq : ∀ y ∈ l, p y = true → y = x) :
    l.find? p = some x := by
  induction l with
  | nil => simp at hx
  | cons a t ih =>
    by_cases hpa : p a = true
    · rw [List.find?_cons_of_pos _ hpa]
      rw [huniq a (List.mem_cons_self a t) hpa]
    · rw [List.find?_cons_of_neg _ (by simp [hpa])]
      rcases List.mem_cons.mp hx with rfl | hmem
      · exact absurd hpx hpa
      · exact ih hmem fun y hy hpy => huniq y (List.mem_cons_of_mem a hy) hpy

theorem mem_cellList {alo ahi blo bhi i j : ℕ} :
    (i, j) ∈ cellList alo ahi blo bhi ↔
      alo ≤ i ∧ i < ahi ∧ blo ≤ j ∧ j < bhi := by
  unfold cellList
  simp only [List.mem_flatMap, List.mem_map, List.mem_range'_1, Prod.mk.injEq]
  constructor
  · rintro ⟨i', hi', j', hj', rfl, rfl⟩
    omega
  · intro h
    exact ⟨i, by omega, j, by omega, rfl, rfl⟩

theorem runEnd_le (a b : List Char) (alo blo : ℕ) :
    ∀ i j, runEnd a b alo blo i j ≤ i - alo + 1 ∧
      runEnd a b alo blo i j ≤ j - blo + 1 := by
  intro i
  induction i with
  | zero =>
    intro j
    unfold runEnd
    rcases a.get? 0 with _ | x <;> rcases b.get? j with _ | y <;> simp
    by_cases hxy : x = y <;> simp [hxy]
  | succ i ih =>
    intro j
    unfold runEnd
    rcases a.get? (i + 1) with _ | x <;> rcases b.get? j with _ | y <;> simp
    by_cases hxy : x = y
    · simp only [hxy, if_pos rfl, if_true]
      by_cases hw : alo < i + 1 ∧ blo < j
      · rw [if_pos hw]
        have := ih (j - 1)
        constructor <;> omega
      · rw [if_neg hw]
        constructor <;> omega
    · simp [hxy]

theorem findBest_bounds (a b : List Char) (alo ahi blo bhi bi bj k : ℕ)
    (h : findBest a b alo ahi blo bhi = (bi, bj, k)) (hk : k ≠ 0) :
    alo ≤ bi ∧ bi + k ≤ ahi ∧ blo ≤ bj ∧ bj + k ≤ bhi := by
  unfold findBest at h
  by_cases hK : (cellList alo ahi blo bhi).foldl
      (fun m c => max m (runEnd a b alo blo c.1 c.2)) 0 = 0
  · rw [if_pos hK] at h
    obtain ⟨rfl, rfl, rfl⟩ : alo = bi ∧ blo = bj ∧ 0 = k := by
      exact ⟨congrArg Prod.fst h, congrArg (Prod.fst ∘ Prod.snd) h,
        congrArg (Prod.snd ∘ Prod.snd) h⟩
    exact absurd rfl hk
  · rw [if_neg hK] at h
    rcases hfind : (cellList alo ahi blo bhi).find?
        (fun c => runEnd a b alo blo c.1 c.2 =
          (cellList alo ahi blo bhi).foldl
            (fun m c => max m (runEnd a b alo blo c.1 c.2)) 0) with _ | ⟨i, j⟩
    · rw [hfind] at h
      obtain rfl : 0 = k := congrArg (Prod.snd ∘ Prod.snd) h
      exact absurd rfl hk
    · rw [hfind] at h
      have hmem := List.mem_of_find?_eq_some hfind
      have hpred := List.find?_some hfind
      simp only [decide_eq_true_eq] at hpred
      obtain ⟨hi1, hi2, hj1, hj2⟩ := mem_cellList.mp hmem
      obtain ⟨rfl, rfl, rfl⟩ :
          i + 1 - (cellList alo ahi blo bhi).foldl
              (fun m c => max m (runEnd a b alo blo c.1 c.2)) 0 = bi ∧
          j + 1 - (cellList alo ahi blo bhi).foldl
              (fun m c => max m (runEnd a b alo blo c.1 c.2)) 0 = bj ∧
          (cellList alo ahi blo bhi).foldl
              (fun m c => max m (runEnd a b alo blo c.1 c.2)) 0 = k := by
        exact ⟨congrArg Prod.fst h, congrArg (Prod.fst ∘ Prod.snd) h,
          congrArg (Prod.snd ∘ Prod.snd) h⟩
      have hle := runEnd_le a b alo blo i j
      rw [hpred] at hle
      constructor
      · omega
      constructor
      · omega
      constructor
      · omega
      · omega

theorem mTotalFuel_le (a b : List Char) :
    ∀ fuel alo ahi blo bhi,
      mTotalFuel a b fuel alo ahi blo bhi ≤ ahi - alo ∧
      mTotalFuel a b fuel alo ahi blo bhi ≤ bhi - blo := by
  intro fuel
  induction fuel with
  | zero => intro alo ahi blo bhi; simp [mTotalFuel]
  | succ fuel ih =>
    intro alo ahi blo bhi
    unfold mTotalFuel
    rcases hfb : findBest a b alo ahi blo bhi with ⟨bi, bj, k⟩
    by_cases hk : k = 0
    · simp [hk]
    · simp only [if_neg hk]
      obtain ⟨h1, h2, h3, h4⟩ := findBest_bounds a b alo ahi blo bhi bi bj k hfb hk
      have hl := ih alo bi blo bj
      have hr := ih (bi + k) ahi (bj + k) bhi
      constructor <;> omega

theorem mTotal_le (a b : List Char) :
    mTotal a b ≤ a.length ∧ mTotal a b ≤ b.length := by
  have := mTotalFuel_le a b a.length 0 a.length 0 b.length
  simpa [mTotal] using this

theorem runEnd_diag (l : List Char) :
    ∀ i, i < l.length → runEnd l l 0 0 i i = i + 1 := by
  intro i
  induction i with
  | zero =>
    intro h
    have hx : l.get? 0 = some (l.get ⟨0, h⟩) := List.get?_eq_get h
    unfold runEnd
    rw [hx]
    simp
  | succ i ih =>
    intro h
    have hx : l.get? (i + 1) = some (l.get ⟨i + 1, h⟩) := List.get?_eq_get h
    unfold runEnd
    rw [hx]
    simp only [if_pos rfl]
    rw [if_pos (by omega : 0 < i + 1 ∧ 0 < i + 1)]
    have h1 : i + 1 - 1 = i := rfl
    rw [h1, ih (by omega)]
    simp

theorem mTotalFuel_empty (a b : List Char) (fuel alo blo bhi : ℕ) :
    mTotalFuel a b fuel alo alo blo bhi = 0 := by
  cases fuel with
  | zero => rfl
  | succ fuel =>
    unfold mTotalFuel
    have hcell : cellList alo alo blo bhi = [] := by
      unfold cellList
      simp
    have hfb : findBest a b alo alo blo bhi = (alo, blo, 0) := by
      unfold findBest
      rw [hcell]
      simp
    rw [hfb]
    simp

theorem findBest_self (l : List Char) (h : l ≠ []) :
    findBest l l 0 l.length 0 l.length = (0, 0, l.length) := by
  have hn : 0 < l.length := List.length_pos.mpr h
  have hdiag : ((l.length - 1, l.length - 1) : ℕ × ℕ) ∈
      cellList 0 l.length 0 l.length := by
    rw [mem_cellList]
    omega
  have hrun : runEnd l l 0 0 (l.length - 1) (l.length - 1) = l.length := by
    rw [runEnd_diag l (l.length - 1) (by omega)]
    omega
  have hK : (cellList 0 l.length 0 l.length).foldl
      (fun m c => max m (runEnd l l 0 0 c.1 c.2)) 0 = l.length := by
    apply le_antisymm
    · apply foldlMax_le
      · omega
      · rintro ⟨i, j⟩ hx
        obtain ⟨h1, h2, h3, h4⟩ := mem_cellList.mp hx
        show runEnd l l 0 0 i j ≤ l.length
        have := (runEnd_le l l 0 0 i j).1
        omega
    · calc l.length = runEnd l l 0 0 (l.length - 1) (l.length - 1) := hrun.symm
        _ ≤ _ := le_foldlMax (fun c : ℕ × ℕ => runEnd l l 0 0 c.1 c.2)
            (cellList 0 l.length 0 l.length) 0 (l.length - 1, l.length - 1) hdiag
  have hfind : (cellList 0 l.length 0 l.length).find?
      (fun c => runEnd l l 0 0 c.1 c.2 = l.length) =
      some (l.length - 1, l.length - 1) := by
    apply find?_unique _ _ _ hdiag
    · simp [hrun]
    · rintro ⟨i, j⟩ hy hpy
      simp only [decide_eq_true_eq] at hpy
      obtain ⟨h1, h2, h3, h4⟩ := mem_cellList.mp hy
      have hle := runEnd_le l l 0 0 i j
      rw [hpy] at hle
      have hi : i = l.length - 1 := by omega
      have hj : j = l.length - 1 := by omega
      simp [hi, hj]
  unfold findBest
  dsimp only
  rw [hK, if_neg (by omega), hfind]
  dsimp only
  have h1 : l.length - 1 + 1 = l.length := by omega
  rw [h1]
  simp

theorem mTotal_self (l : List Char) : mTotal l l = l.length := by
  rcases hl : l.length with _ | m
  · obtain rfl : l = [] := List.length_eq_zero.mp hl
    rfl
  · have h : l ≠ [] := by
      intro hc
      rw [hc] at hl
      simp at hl
    have hfb : findBest l l 0 (m + 1) 0 (m + 1) = (0, 0, m + 1) := by
      rw [← hl]
      exact findBest_self l h
    unfold mTotal
    rw [hl]
    unfold mTotalFuel
    rw [hfb]
    dsimp only
    rw [if_neg (by omega)]
    rw [show 0 + (m + 1) = m + 1 from by omega]
    rw [mTotalFuel_empty, mTotalFuel_empty]
    omega

theorem ratioQ_self (l : List Char) : ratioQ l l = 1 := by
  unfold ratioQ
  by_cases h : l.length + l.length = 0
  · rw [if_pos h]
  · rw [if_neg h]
    rw [mTotal_self, Rat.mkRat_eq_div]
    have hne : ((l.length + l.length : ℕ) : ℚ) ≠ 0 := by
      exact_mod_cast h
    rw [div_eq_one_iff_eq hne]
    push_cast
    ring

theorem ratioQ_nonneg (a b : List Char) : 0 ≤ ratioQ a b := by
  unfold ratioQ
  by_cases h : a.length + b.length = 0
  · rw [if_pos h]
    norm_num
  · rw [if_neg h, Rat.mkRat_eq_div]
    apply div_nonneg
    · positivity
    · positivity

theorem ratioQ_le_one (a b : List Char) : ratioQ a b ≤ 1 := by
  unfold ratioQ
  by_cases h : a.length + b.length = 0
  · rw [if_pos h]
  · rw [if_neg h, Rat.mkRat_eq_div]
    rw [div_le_one (by positivity)]
    have h1 := (mTotal_le a b).1
    have h2 := (mTotal_le a b).2
    push_cast
    have hc1 : (mTotal a b : ℚ) ≤ a.length := by exact_mod_cast h1
    have hc2 : (mTotal a b : ℚ) ≤ b.length := by exact_mod_cast h2
    linarith

/-!
## Lemmas about the email recognizer
-/

theorem breakAtFirst_some_spec (c : Char) :
    ∀ l p q : List Char, breakAtFirst c l = some (p, q) →
      l = p ++ c :: q ∧ c ∉ p := by
  intro l
  induction l with
  | nil => intro p q h; simp [breakAtFirst] at h
  | cons x xs ih =>
    intro p q h
    unfold breakAtFirst at h
    by_cases hx : x = c
    · rw [if_pos hx] at h
      obtain ⟨rfl, rfl⟩ : ([] : List Char) = p ∧ xs = q := by
        have h1 := congrArg (fun o => Option.map Prod.fst o) h
        have h2 := congrArg (fun o => Option.map Prod.snd o) h
        simp at h1 h2
        exact ⟨h1.symm, h2⟩
      subst hx
      exact ⟨rfl, by simp⟩
    · rw [if_neg hx] at h
      rcases hb : breakAtFirst c xs with _ | ⟨p', q'⟩
      · rw [hb] at h
        simp at h
      · rw [hb] at h
        obtain ⟨rfl, rfl⟩ : x :: p' = p ∧ q' = q := by
          have h1 := congrArg (fun o => Option.map Prod.fst o) h
          have h2 := congrArg (fun o => Option.map Prod.snd o) h
          simp at h1 h2
          exact ⟨h1, h2⟩
        obtain ⟨heq, hnot⟩ := ih p' q' hb
        constructor
        · rw [heq]
          simp
        · intro hc
          rcases List.mem_cons.mp hc with hc | hc
          · exact hx hc.symm
          · exact hnot hc

theorem breakAtFirst_append (c : Char) :
    ∀ p q : List Char, c ∉ p → breakAtFirst c (p ++ c :: q) = some (p, q) := by
  intro p
  induction p with
  | nil =>
    intro q _
    simp [breakAtFirst]
  | cons x xs ih =>
    intro q hc
    have hx : ¬ x = c := fun h => hc (h ▸ List.mem_cons_self x xs)
    show breakAtFirst c (x :: (xs ++ c :: q)) = _
    unfold breakAtFirst
    rw [if_neg hx, ih q (fun h => hc (List.mem_cons_of_mem x h))]

theorem breakAtLast_some_spec (c : Char) (l m t : List Char)
    (h : breakAtLast c l = some (m, t)) : l = m ++ c :: t ∧ c ∉ t := by
  unfold breakAtLast at h
  rcases hb : breakAtFirst c l.reverse with _ | ⟨p, q⟩
  · rw [hb] at h
    simp at h
  · rw [hb] at h
    obtain ⟨rfl, rfl⟩ : q.reverse = m ∧ p.reverse = t := by
      have h1 := congrArg (fun o => Option.map Prod.fst o) h
      have h2 := congrArg (fun o => Option.map Prod.snd o) h
      simp at h1 h2
      exact ⟨h1, h2⟩
    obtain ⟨heq, hnot⟩ := breakAtFirst_some_spec c l.reverse p q hb
    constructor
    · have := congrArg List.reverse heq
      simpa using this
    · simpa using hnot

theorem breakAtLast_append (c : Char) (m t : List Char) (hc : c ∉ t) :
    breakAtLast c (m ++ c :: t) = some (m, t) := by
  unfold breakAtLast
  have hrev : (m ++ c :: t).reverse = t.reverse ++ c :: m.reverse := by
    simp
  rw [hrev, breakAtFirst_append c t.reverse m.reverse (by simpa using hc)]
  simp

theorem alnum_not_space (c : Char) (h : isAsciiAlnum c = true) :
    pyIsSpace c = false := by
  simp only [isAsciiAlnum, Bool.or_eq_true, Bool.and_eq_true,
    decide_eq_true_eq] at h
  simp only [pyIsSpace, Bool.or_eq_false_iff, Bool.and_eq_false_iff,
    decide_eq_false_iff_not]
  omega

/-- A full `EMAIL_RE` match (with `$` as hard end-of-subject) accepts
exactly the claimed `local-part@domain.tld` language. -/
theorem emailCore_iff (l : List Char) : emailCore l = true ↔ specEmailShape l := by
  constructor
  · intro h
    unfold emailCore at h
    rcases hb : breakAtFirst '@' l with _ | ⟨L, R⟩
    · rw [hb] at h
      simp at h
    · rw [hb] at h
      dsimp only at h
      rcases hbl : breakAtLast '.' R with _ | ⟨M, T⟩
      · rw [hbl] at h
        simp at h
      · rw [hbl] at h
        dsimp only at h
        simp only [Bool.and_eq_true, decide_eq_true_eq, List.all_eq_true,
          Bool.not_eq_true'] at h
        obtain ⟨⟨⟨hL1, hLws⟩, hRa⟩, ⟨⟨hM1, hMws⟩, hT2⟩, hTal⟩ := h
        obtain ⟨hleq, hLnot⟩ := breakAtFirst_some_spec '@' l L R hb
        obtain ⟨hreq, hTnot⟩ := breakAtLast_some_spec '.' R M T hbl
        have hRcount : R.count '@' = 0 := by
          rw [List.count_eq_zero]
          intro hmem
          exact absurd rfl (hRa '@' hmem)
        have hLcount : L.count '@' = 0 := List.count_eq_zero.mpr hLnot
        refine ⟨?_, ?_, L, M, T, by rw [hleq, hreq], hL1, hLnot, hM1, hTnot, hT2,
          fun c hc => hTal c hc⟩
        · rw [hleq]
          rw [List.count_append, List.count_cons_self, hLcount, hRcount]
        · intro ch hch
          rw [hleq, hreq] at hch
          rcases List.mem_append.mp hch with hch | hch
          · exact hLws ch hch
          · rcases List.mem_cons.mp hch with rfl | hch
            · decide
            · rcases List.mem_append.mp hch with hch | hch
              · exact hMws ch hch
              · rcases List.mem_cons.mp hch with rfl | hch
                · decide
                · exact alnum_not_space ch (hTal ch hch)
  · rintro ⟨hcount, hws, L, M, T, heq, hL1, hLnot, hM1, hTnot, hT2, hTal⟩
    unfold emailCore
    rw [heq, breakAtFirst_append '@' L (M ++ '.' :: T) hLnot]
    dsimp only
    rw [breakAtLast_append '.' M T hTnot]
    dsimp only
    simp only [Bool.and_eq_true, decide_eq_true_eq, List.all_eq_true,
      Bool.not_eq_true']
    have hmemL : ∀ ch ∈ L, ch ∈ l := by
      intro ch hch
      rw [heq]
      exact List.mem_append.mpr (Or.inl hch)
    have hmemR : ∀ ch ∈ M ++ '.' :: T, ch ∈ l := by
      intro ch hch
      rw [heq]
      exact List.mem_append.mpr (Or.inr (List.mem_cons_of_mem _ hch))
    refine ⟨⟨⟨hL1, fun ch hch => hws ch (hmemL ch hch)⟩, ?_⟩,
      ⟨⟨hM1, fun ch hch => hws ch (hmemR ch (List.mem_append.mpr (Or.inl hch)))⟩,
        hT2⟩,
      fun c hc => hTal c hc⟩
    intro ch hch hcc
    subst hcc
    have hR : 0 < (M ++ '.' :: T).count '@' := List.count_pos_iff.mpr hch
    have hcl : l.count '@' = L.count '@' + ((M ++ '.' :: T).count '@' + 1) := by
      rw [heq, List.count_append, List.count_cons_self]
    omega

/-- C7 counterexample: `is_valid_email` accepts `"a@b.com\n"`, a string
containing whitespace, because Python's `$` also matches just before a
trailing newline — so the accepted language is not exactly the claimed
whitespace-free shape. -/
theorem email_accepts_trailing_newline :
    is_valid_email "a@b.com\n" = true ∧
    ('\n' ∈ "a@b.com\n".data ∧ pyIsSpace '\n' = true) ∧
    ¬ specEmailShape "a@b.com\n".data := by
  refine ⟨by decide, ⟨by decide, by decide⟩, ?_⟩
  rintro ⟨-, hws, -⟩
  exact absurd (hws '\n' (by decide)) (by decide)

/-- C7 (amended): `is_valid_email` accepts exactly the strings of shape
`local-part@domain.tld` — one `@`, no whitespace, nonempty local part
and domain, final label after the last dot made of 2+ alphanumeric
characters — optionally followed by a single trailing newline
(Python's `$`); in particular `a@b` is rejected and `a@b.com`
accepted. -/
theorem is_valid_email_exactly (s : String) :
    (is_valid_email s = true ↔
      (specEmailShape s.data ∨ ∃ l, s.data = l ++ ['\n'] ∧ specEmailShape l)) ∧
    is_valid_email "a@b" = false ∧
    is_valid_email "a@b.com" = true := by
  refine ⟨?_, by decide, by decide⟩
  unfold is_valid_email
  rw [Bool.or_eq_true, Bool.and_eq_true]
  constructor
  · rintro (hcore | ⟨hlast, hcore⟩)
    · exact Or.inl ((emailCore_iff _).mp hcore)
    · right
      rw [decide_eq_true_eq] at hlast
      have hne : s.data ≠ [] := by
        intro hc
        rw [hc] at hlast
        simp at hlast
      have hlasteq : s.data.getLast hne = '\n' := by
        have := List.getLast?_eq_getLast s.data hne
        rw [hlast] at this
        exact (Option.some.inj this).symm
      refine ⟨s.data.dropLast, ?_, (emailCore_iff _).mp hcore⟩
      rw [← hlasteq]
      exact (List.dropLast_append_getLast hne).symm
  · rintro (hshape | ⟨l, heq, hshape⟩)
    · exact Or.inl ((emailCore_iff _).mpr hshape)
    · right
      constructor
      · rw [decide_eq_true_eq, heq]
        exact List.getLast?_concat l
      · rw [heq, List.dropLast_concat]
        exact (emailCore_iff _).mpr hshape

/-- Witness for C7: the characterization applied at a concrete address
with a trailing newline. -/
theorem is_valid_email_exactly_witness :
    is_valid_email "x.y@z.ww\n" = true :=
  ((is_valid_email_exactly "x.y@z.ww\n").1).mpr
    (Or.inr ⟨"x.y@z.ww".data, by decide,
      ⟨by decide, by decide, "x.y".data, "z".data, "ww".data, by decide, by decide,
        by decide, by decide, by decide, by decide, by decide⟩⟩)

/-- C6: writing a collection that satisfies the data-model invariants
(non-empty names, fields free of surrounding whitespace) and reading it
back yields an equal collection (here proved as exact equality, which
subsumes equality up to tag ordering). -/
theorem contacts_roundtrip (s : SysState) (l : List Contact) (d t : String)
    (h : ∀ c ∈ l, cleanContact c) :
    read_contacts (write_contacts s l d t) = l :=
  read_write_contacts s l d t h

/-- Witness for C6 at a concrete two-contact collection. -/
theorem contacts_roundtrip_witness :
    (∀ c ∈ ([⟨"Ann", "123", "a@b.cc", "y,x", true⟩,
        ⟨"Bo", "", "", "", false⟩] : List Contact), cleanContact c) ∧
    read_contacts (write_contacts ⟨some [], none, []⟩
        [⟨"Ann", "123", "a@b.cc", "y,x", true⟩, ⟨"Bo", "", "", "", false⟩]
        "20251114" "090000") =
      [⟨"Ann", "123", "a@b.cc", "y,x", true⟩, ⟨"Bo", "", "", "", false⟩] :=
  ⟨by decide,
    contacts_roundtrip ⟨some [], none, []⟩
      [⟨"Ann", "123", "a@b.cc", "y,x", true⟩, ⟨"Bo", "", "", "", false⟩]
      "20251114" "090000" (by decide)⟩

/-- C5 counterexample: the name-similarity function is not symmetric.
`SequenceMatcher` picks the first maximal matching block in scan order,
and the surrounding recursion depends on which side is `a`:
`similarity("ab", "bacb") = 2/3` while `similarity("bacb", "ab") = 1/3`
(the values Python's `difflib` computes as well). -/
theorem name_similarity_not_symmetric :
    name_similarity "ab" "bacb" = mkRat 2 3 ∧
    name_similarity "bacb" "ab" = mkRat 1 3 ∧
    ¬ name_similarity "ab" "bacb" = name_similarity "bacb" "ab" := by
  decide

/-- C5 (amended): the name-similarity function is reflexive
(`similarity(a, a) = 1`), always returns a value in `[0, 1]`, and is
case-insensitive (inputs equal up to case give equal results); it is
not symmetric in general. -/
theorem name_similarity_props (a b a' b' : String)
    (h1 : lowerS a' = lowerS a) (h2 : lowerS b' = lowerS b) :
    name_similarity a a = 1 ∧
    0 ≤ name_similarity a b ∧ name_similarity a b ≤ 1 ∧
    name_similarity a' b' = name_similarity a b := by
  refine ⟨ratioQ_self _, ratioQ_nonneg _ _, ratioQ_le_one _ _, ?_⟩
  unfold name_similarity
  rw [h1, h2]

/-- Witness for C5: reflexivity, the range bound, and case-invariance
at concrete names. -/
theorem name_similarity_props_witness :
    (lowerS "JON smith" = lowerS "Jon Smith" ∧ lowerS "AB" = lowerS "ab") ∧
    (name_similarity "Jon Smith" "Jon Smith" = 1 ∧
      0 ≤ name_similarity "Jon Smith" "ab" ∧ name_similarity "Jon Smith" "ab" ≤ 1 ∧
      name_similarity "JON smith" "AB" = name_similarity "Jon Smith" "ab") :=
  ⟨⟨by decide, by decide⟩,
    name_similarity_props "Jon Smith" "ab" "JON smith" "AB" (by decide) (by decide)⟩

/-- Witness for C10: a whitespace-only name row is dropped and the
surviving contact's name is non-empty. -/
theorem readRows_nonempty_names_witness :
    (⟨"Bob", "", "", "", true⟩ : Contact) ∈
      readRows [⟨"Bob", "", "", "", "1"⟩] ∧
    (⟨"Bob", "", "", "", true⟩ : Contact).name ≠ "" ∧
    pyStrip "  " = "" ∧
    readRows [⟨"  ", "55", "x@y.zz", "t", "1"⟩, ⟨"Bob", "", "", "", "1"⟩] =
      readRows [⟨"Bob", "", "", "", "1"⟩] :=
  ⟨by decide,
    (readRows_nonempty_names [⟨"Bob", "", "", "", "1"⟩]).1 _ (by decide),
    by decide,
    (readRows_nonempty_names [⟨"Bob", "", "", "", "1"⟩]).2 _ (by decide)⟩

end ContactManager
